import Mathlib

/-! Shallow embedding of the question-extraction pipeline in src/试题转换/106.py:
the default configuration data, the line classifier, the document segmenter,
the answer-driven type classifier, the option counter, the difficulty mapper
and the grouped exporter, together with proofs about them. -/

set_option maxHeartbeats 1000000

/-- Default configuration: the question-number separator strings (config key separators),
in declaration order. -/
def separators : List String := ["．", "."]

/-- Default configuration: answer tag labels. -/
def answerTags : List String := ["【答案】", "[答案]", "答案：", "答案:"]

/-- Default configuration: difficulty tag labels. -/
def difficultyTags : List String := ["【难度】", "[难度]", "难度：", "难度:"]

/-- Default configuration: knowledge tag labels. -/
def knowledgeTags : List String := ["【知识点】", "[知识点]", "知识点：", "知识点:"]

/-- Default configuration: explanation tag labels. -/
def explanationTags : List String := ["【详解】", "[详解]", "解析：", "解析:"]

/-- Default configuration: difficulty_levels.easy.threshold. -/
def easyThreshold : ℚ := 0.85

/-- Default configuration: difficulty_levels.medium.threshold. -/
def mediumThreshold : ℚ := 0.85

/-- Default configuration: difficulty_levels.easy.name. -/
def easyName : String := "易"

/-- Default configuration: difficulty_levels.medium.name. -/
def mediumName : String := "中"

/-- Default configuration: difficulty_levels.hard.name. -/
def hardName : String := "难"

/-- Default configuration: the option alphabet (config key options, one-letter strings,
modelled as characters). -/
def optionsCfg : List Char := ['A', 'B', 'C', 'D']

/-- Default configuration: the judge-answer vocabulary. -/
def judge_answers : List String :=
  ["T", "F", "对", "错", "TRUE", "FALSE", "√", "×", "true", "false", "True", "False", "正确", "错误"]

/-- Default configuration: output.columns. -/
def output_columns : List String := ["题型", "题干", "选项", "选项数量", "答案", "解析", "所属知识点", "难度"]

/-- Models Python str.upper at the character level (ASCII case mapping; the CJK
characters appearing in the configuration are fixed points of upper-casing). -/
def pyUpper (s : String) : String := String.mk (s.toList.map Char.toUpper)

/-- Models Python str.strip with no arguments: remove leading and trailing whitespace. -/
def pyStrip (s : String) : String :=
  String.mk (((s.toList.dropWhile (fun c => c.isWhitespace)).reverse.dropWhile
    (fun c => c.isWhitespace)).reverse)

/-- Boolean list prefix test (needle first), modelling str.startswith. -/
def listIsPrefixOf : List Char → List Char → Bool
  | [], _ => true
  | _ :: _, [] => false
  | a :: pat, b :: l => a == b && listIsPrefixOf pat l

/-- Models Python pre-in-s substring search (the operator in on strings). -/
def listIsSubstr (pat : List Char) : List Char → Bool
  | [] => pat.isEmpty
  | c :: t => listIsPrefixOf pat (c :: t) || listIsSubstr pat t

/-- Models Python text.startswith(pre). -/
def pyStartsWith (s pre : String) : Bool := listIsPrefixOf pre.toList s.toList

/-- Models the Python slice text[n:] by characters. -/
def pyDrop (s : String) (n : Nat) : String := String.mk (s.toList.drop n)

/-- Models Python str.replace applied as replace(' ', ''): removes every space character
(only U+0020) from the string. -/
def pyReplaceSpace (s : String) : String := String.mk (s.toList.filter (fun c => c != ' '))

/-- Models Python sep.join(lines). -/
def pyJoin (sep : String) : List String → String
  | [] => ""
  | [l] => l
  | l :: l' :: ls => l ++ sep ++ pyJoin sep (l' :: ls)

/-- QuestionConfig.get_tag_content: the text after the first matching tag label of the
given list, stripped; none when no label matches. -/
def get_tag_content (tags : List String) (text : String) : Option String :=
  match tags.find? (fun tag => pyStartsWith text tag) with
  | some tag => some (pyStrip (pyDrop text tag.toList.length))
  | none => none

/-- Digit-run value, used by the model of float parsing. -/
def digitsVal (cs : List Char) : Nat := cs.foldl (fun a c => 10 * a + (c.toNat - 48)) 0

/-- Structured result of the float(value) parse: sign flag (true = negative), integer
digits, fraction digits. -/
def pyFloatParts (s : String) : Option (Bool × List Char × List Char) :=
  let cs := (pyStrip s).toList
  let signRest : Bool × List Char :=
    match cs with
    | '-' :: r => (true, r)
    | '+' :: r => (false, r)
    | _ => (false, cs)
  let ip := signRest.2.takeWhile (fun c => c.isDigit)
  match signRest.2.drop ip.length with
  | [] => if ip = [] then none else some (signRest.1, ip, [])
  | '.' :: fr =>
    let fp := fr.takeWhile (fun c => c.isDigit)
    if fr.drop fp.length = [] then
      if ip = [] ∧ fp = [] then none
      else some (signRest.1, ip, fp)
    else none
  | _ => none

/-- Models the float(value) call in determine_difficulty: parses an optional sign,
an integer part and an optional fractional part of a decimal literal (the forms the
difficulty tokens of this pipeline take); anything else fails. -/
def pyFloat (s : String) : Option ℚ :=
  (pyFloatParts s).map (fun p =>
    (if p.1 then (-1 : ℚ) else 1) *
      ((digitsVal p.2.1 : ℚ) + (digitsVal p.2.2 : ℚ) / (10 : ℚ) ^ p.2.2.length))

/-- QuestionConfig.determine_difficulty; the Bool component records whether the
ValueError branch ran (logger.warning about an unparsable difficulty value). -/
def determine_difficulty (value : String) : String × Bool :=
  match pyFloat value with
  | some v =>
    (if v < easyThreshold then easyName
     else if v = mediumThreshold then mediumName
     else hardName, false)
  | none => (mediumName, true)

/-- QuestionType.determine_type: empty answer, judge vocabulary, choice alphabet,
fill-in-the-blank, in the source's order.  The Python set of answer characters is
modelled by dedup of the character list. -/
def determine_type (answer : String) : String :=
  if answer = "" then "未知类型"
  else
    let processed := pyStrip (pyUpper answer)
    if judge_answers.any (fun j => j == answer || pyUpper j == processed) then "判断题"
    else
      let noSpace := (pyReplaceSpace processed).toList
      let answer_chars := noSpace.dedup
      if answer_chars ≠ [] ∧ answer_chars.all (fun c => optionsCfg.contains c) then
        if noSpace.length > 1 then "多选题" else "单选题"
      else "填空题"

/-- Two-character substring membership, modelling the Python operator in for the
probes of count_options. -/
def pyContains (pat s : String) : Bool := listIsSubstr pat.toList s.toList

/-- The per-letter probe of count_options: the text contains the letter followed by
a dot, a fullwidth dot or a space. -/
def hasOptMark (opt : Char) (s : String) : Bool :=
  pyContains (String.mk [opt, '.']) s || pyContains (String.mk [opt, '．']) s ||
    pyContains (String.mk [opt, ' ']) s

/-- QuestionType.count_options on the joined option text. -/
def count_options (choices : String) : Nat :=
  if choices = "" then 0
  else optionsCfg.countP (fun opt => hasOptMark opt (pyUpper choices))

/-- One regex atom of a separator pattern: the source builds its patterns by plain
string concatenation without escaping, so a '.' separator character is the regex
wildcard (any character except newline) while every other character is a literal. -/
def regexAtom (p c : Char) : Bool := if p = '.' then c != '\n' else c == p

/-- Match a list of separator atoms at the front of the text, returning the remainder. -/
def matchAtoms : List Char → List Char → Option (List Char)
  | [], t => some t
  | _ :: _, [] => none
  | p :: ps, c :: t => if regexAtom p c then matchAtoms ps t else none

/-- Matching of the anchored pattern digits-plus-then-separator-atoms, i.e.
re.match of r'^\d+' ++ sep: at least one leading digit, then the separator atoms
somewhere after a nonempty digit prefix. -/
def matchDigitsThenAtoms (pat : List Char) : List Char → Bool
  | [] => false
  | c :: t => c.isDigit && ((matchAtoms pat t).isSome || matchDigitsThenAtoms pat t)

/-- QuestionProcessor.is_question_start. -/
def is_question_start (text : String) : Bool :=
  separators.any (fun sep => matchDigitsThenAtoms sep.toList (pyStrip text).toList)

/-- QuestionProcessor.is_option_start. -/
def is_option_start (text : String) : Bool :=
  optionsCfg.any (fun opt =>
    pyStartsWith (pyStrip text) (String.mk [opt, '.']) ||
      pyStartsWith (pyStrip text) (String.mk [opt, '．']))

/-- One re.sub of the anchored pattern digits-plus, separator atoms, whitespace-star,
replaced by the empty string: the greedy digit run backtracks until the separator atoms
match, then trailing whitespace is consumed; on a match the whole matched prefix is
removed, otherwise the text is unchanged. -/
def subQNumOnce (pat : List Char) (t : List Char) : List Char :=
  let n := (t.takeWhile (fun c => c.isDigit)).length
  match ((List.range n).map (fun i => n - i)).findSome?
      (fun k => (matchAtoms pat (t.drop k)).map (fun r => r.dropWhile (fun c => c.isWhitespace))) with
  | some r => r
  | none => t

/-- QuestionProcessor.remove_question_number: the substitution is applied once per
configured separator, in declaration order. -/
def remove_question_number (text : String) : String :=
  separators.foldl (fun t sep => String.mk (subQNumOnce sep.toList t.toList)) text

/-- Worker for the parenthesis normalization; the fuel argument only drives structural
recursion and is always initialized to the list length, which every step strictly
shrinks, so the zero-fuel branch is never taken on the initial call. -/
def normParenAux : Nat → List Char → List Char
  | 0, l => l
  | _ + 1, [] => []
  | fuel + 1, c :: rest =>
    if c = '（' ∧ (rest.drop ((rest.takeWhile (fun ch => ch.isWhitespace)).length)).head? = some '）'
    then '（' :: ' ' :: ' ' :: ' ' :: '）' ::
      normParenAux fuel ((rest.drop ((rest.takeWhile (fun ch => ch.isWhitespace)).length)).tail)
    else c :: normParenAux fuel rest

/-- The re.sub of fullwidth-parenthesis blank normalization in save_current_question:
every occurrence of （, whitespace-star, ） is replaced by （ three spaces ）,
scanning leftmost and non-overlapping. -/
def normParen (l : List Char) : List Char := normParenAux l.length l

/-- One input paragraph: its text and whether python-docx finds embedded media in it
(QuestionProcessor.has_image). -/
structure Para where
  text : String
  hasMedia : Bool
deriving DecidableEq, Repr

/-- The current_question dict: opened with a title, tag fields default to the empty
string as with dict.get(key, ''). -/
structure QInfo where
  title : String
  answer : String := ""
  difficulty : String := ""
  knowledge : String := ""
  explanation : String := ""
deriving DecidableEq, Repr

/-- The parallel result lists built by process_document. -/
structure DocData where
  title_list : List String := []
  choice_list : List String := []
  answer_list : List String := []
  difficulty_list : List String := []
  knowledge_list : List String := []
  explain_list : List String := []
  type_list : List String := []
  option_count_list : List Nat := []
  has_image_list : List Bool := []
deriving DecidableEq, Repr

/-- The mutable state of the paragraph loop in process_document. -/
structure PState where
  data : DocData
  current_question : Option QInfo
  collecting_title : Bool
  current_title_lines : List String
  current_choices : List String
  current_has_image : Bool
deriving DecidableEq, Repr

/-- The loop state before the first paragraph. -/
def initState : PState :=
  { data := {}, current_question := none, collecting_title := false,
    current_title_lines := [], current_choices := [], current_has_image := false }

/-- save_current_question in process_document: when a block is open, finalize it into
the parallel lists and reset the in-flight title lines, choice lines and image flag;
current_question itself is left as it is (exactly as in the source, where only the
question-start branch replaces it). -/
def save_current_question (s : PState) : PState :=
  match s.current_question with
  | none => s
  | some q =>
    let full_title := pyJoin " " s.current_title_lines
    let cleaned_title := remove_question_number (String.mk (normParen full_title.toList))
    let choice_text := pyJoin "\n" s.current_choices
    { s with
      data :=
        { s.data with
          title_list := s.data.title_list ++ [cleaned_title],
          has_image_list := s.data.has_image_list ++ [s.current_has_image],
          choice_list := s.data.choice_list ++ [choice_text],
          option_count_list := s.data.option_count_list ++ [count_options choice_text],
          answer_list := s.data.answer_list ++ [q.answer],
          type_list := s.data.type_list ++ [determine_type q.answer],
          difficulty_list := s.data.difficulty_list ++ [q.difficulty],
          knowledge_list := s.data.knowledge_list ++ [q.knowledge],
          explain_list := s.data.explain_list ++ [q.explanation] },
      current_title_lines := [],
      current_choices := [],
      current_has_image := false }

/-- One iteration of the paragraph loop of QuestionProcessor.process_document,
with the source's branch order: blank skip, question start, option start, answer tag,
difficulty tag, knowledge tag, explanation tag, title collection, ignore. -/
def process_para (s : PState) (para : Para) : PState :=
  if pyStrip para.text = "" then s
  else if is_question_start (pyStrip para.text) then
    let s' := save_current_question s
    { s' with
      current_question := some (⟨pyStrip para.text, "", "", "", ""⟩ : QInfo),
      collecting_title := true,
      current_title_lines := [pyStrip para.text],
      current_has_image := para.hasMedia }
  else if is_option_start (pyStrip para.text) then
    { s with collecting_title := false,
             current_choices := s.current_choices ++ [pyStrip para.text] }
  else if answerTags.any (fun tag => pyStartsWith (pyStrip para.text) tag) then
    match get_tag_content answerTags (pyStrip para.text), s.current_question with
    | some answer_text, some q =>
      if answer_text ≠ "" then
        { s with current_question := some ({ q with answer := answer_text } : QInfo) }
      else s
    | some _, none => s
    | none, _ => s
  else if difficultyTags.any (fun tag => pyStartsWith (pyStrip para.text) tag) then
    match s.current_question with
    | some q =>
      { s with current_question := some ({ q with difficulty :=
          (determine_difficulty
            ((get_tag_content difficultyTags (pyStrip para.text)).getD "")).1 } : QInfo) }
    | none => s
  else if knowledgeTags.any (fun tag => pyStartsWith (pyStrip para.text) tag) then
    match s.current_question with
    | some q =>
      { s with current_question := some ({ q with
          knowledge := (get_tag_content knowledgeTags (pyStrip para.text)).getD "" } : QInfo) }
    | none => s
  else if explanationTags.any (fun tag => pyStartsWith (pyStrip para.text) tag) then
    match s.current_question with
    | some q =>
      { s with current_question := some ({ q with
          explanation := (get_tag_content explanationTags (pyStrip para.text)).getD "" } : QInfo) }
    | none => s
  else if s.collecting_title then
    { s with
      current_title_lines := s.current_title_lines ++ [pyStrip para.text],
      current_has_image := s.current_has_image || para.hasMedia }
  else s

/-- QuestionProcessor.process_document on the whole paragraph stream, including the
final save of the still-open block. -/
def process_document (paras : List Para) : DocData :=
  (save_current_question (paras.foldl process_para initState)).data

/-- One prepared Excel row of prepare_excel_data (the nine dict keys). -/
structure XRow where
  qtype : String
  title : String
  options : String
  optionCount : Nat
  answer : String
  explain : String
  knowledge : String
  difficulty : String
  hasImage : Bool
deriving DecidableEq, Repr

/-- QuestionExporter.prepare_excel_data; the out-of-range guards of the source are
modelled with getD. -/
def prepare_excel_data (data : DocData) : List XRow :=
  (List.range data.title_list.length).map (fun i =>
    { qtype := data.type_list.getD i "",
      title := data.title_list.getD i "",
      options := data.choice_list.getD i "",
      optionCount := data.option_count_list.getD i 0,
      answer := data.answer_list.getD i "",
      explain := data.explain_list.getD i "",
      knowledge := data.knowledge_list.getD i "",
      difficulty := data.difficulty_list.getD i "",
      hasImage := data.has_image_list.getD i false })

/-- One row of the grouped sequence: a question row or a blank separator row. -/
inductive ERow where
  | row (r : XRow)
  | sep
deriving DecidableEq, Repr

/-- The fixed type order of export_to_excel. -/
def type_order : List String := ["单选题", "多选题", "判断题", "填空题", "未知类型"]

/-- One iteration of the grouping loop of QuestionExporter.export_to_excel: append
the rows of the given type, preceded by one blank separator row whenever the
accumulator is already nonempty; skip the type entirely when it has no rows. -/
def group_step (excel_data : List XRow) (grouped : List ERow) (t : String) : List ERow :=
  let tq := (excel_data.filter (fun q => q.qtype == t)).map ERow.row
  if tq = [] then grouped
  else if grouped = [] then tq
  else grouped ++ ERow.sep :: tq

/-- The grouping loop of QuestionExporter.export_to_excel over the fixed type
order. -/
def group_rows (excel_data : List XRow) : List ERow :=
  type_order.foldl (group_step excel_data) []

/-- Models the pandas calls pd.DataFrame(grouped_data)[columns] at the library
boundary: every row dict built by the exporter carries exactly the eight output
columns plus has_image as keys, a frame built from a nonempty list of such dicts has
those keys as its columns, a frame built from an empty list has no columns at all, and
projecting on a column that is absent raises KeyError. -/
def df_project (rows : List ERow) : Except String (List ERow) :=
  let dfCols : List String := if rows.isEmpty then [] else output_columns ++ ["has_image"]
  if output_columns.all (fun c => dfCols.contains c) then Except.ok rows
  else Except.error "KeyError"

/-- QuestionExporter.export_to_excel: prepare the rows, group them, then run the
DataFrame projection; an exception propagates (the except branch logs and re-raises). -/
def export_to_excel (data : DocData) : Except String (List ERow) :=
  df_project (group_rows (prepare_excel_data data))

/-- Claim-side reading of a question start (C1): the trimmed text literally begins
with one or more digits immediately followed by one of the configured separator
strings. -/
def QuestionStartClaim (text : String) : Prop :=
  ∃ sep ∈ separators, ∃ ds rest : List Char,
    (pyStrip text).toList = ds ++ sep.toList ++ rest ∧ ds ≠ [] ∧ ∀ c ∈ ds, c.isDigit

/-- Whitespace removal (every whitespace character), used by the claim-side reading
of the type classifier. -/
def pyRemoveWhitespace (s : String) : String :=
  String.mk (s.toList.filter (fun c => !c.isWhitespace))

/-- Claim-side classifier of C4, reading step 3 as removing all internal whitespace
before checking the option alphabet. -/
def determine_type_claim (answer : String) : String :=
  if answer = "" then "未知类型"
  else if judge_answers.any (fun j => j == answer || pyUpper j == pyStrip (pyUpper answer)) then
    "判断题"
  else
    let s := (pyRemoveWhitespace (pyStrip (pyUpper answer))).toList
    if s ≠ [] ∧ s.all (fun c => optionsCfg.contains c) then
      if s.length = 1 then "单选题" else "多选题"
    else "填空题"

/-- Amended classifier of C4: as the claim reads, except that only space characters
(U+0020) are removed, matching replace(' ', '') in the source. -/
def determine_type_amended (answer : String) : String :=
  if answer = "" then "未知类型"
  else if judge_answers.any (fun j => j == answer || pyUpper j == pyStrip (pyUpper answer)) then
    "判断题"
  else
    let s := (pyReplaceSpace (pyStrip (pyUpper answer))).toList
    if s ≠ [] ∧ s.all (fun c => optionsCfg.contains c) then
      if s.length = 1 then "单选题" else "多选题"
    else "填空题"

/-- Claim-side presence of an option letter (C7): the upper-cased text contains the
letter immediately followed by a dot, a fullwidth dot or a space. -/
def PresentMark (c : Char) (s : String) : Prop :=
  ∃ m ∈ (['.', '．', ' '] : List Char), ∃ t u : List Char, (pyUpper s).toList = t ++ c :: m :: u

/-- Scanner for a two-character pattern, used to reason about substring search across
newline-joined lines. -/
def containsPair (a b : Char) : List Char → Bool
  | x :: y :: t => (a == x && b == y) || containsPair a b (y :: t)
  | _ => false

/-- List-level newline join, mirroring pyJoin at the character level. -/
def listJoinNl : List (List Char) → List Char
  | [] => []
  | [l] => l
  | l :: l' :: ls => l ++ '\n' :: listJoinNl (l' :: ls)

/-- Spec-side per-type partition of the rows, in the fixed type order. -/
def groupsOf (l : List XRow) : List (List XRow) :=
  type_order.map (fun t => l.filter (fun q => q.qtype == t))

/-- Spec-side join of groups with exactly one separator row between consecutive
groups and none at the borders. -/
def sepJoin : List (List ERow) → List ERow
  | [] => []
  | [g] => g
  | g :: g' :: gs => g ++ ERow.sep :: sepJoin (g' :: gs)

/-- Spec-side grouped sequence over an arbitrary type order: the nonempty per-type
partitions, in order, as separator-free row groups. -/
def specGroupsOn (l : List XRow) (ord : List String) : List (List ERow) :=
  ((ord.map (fun t => l.filter (fun q => q.qtype == t))).filter
    (fun g => !g.isEmpty)).map (fun g => g.map ERow.row)

/-- Spec-side grouped sequence: the nonempty per-type partitions in fixed order,
joined with single separator rows. -/
def specGroups (l : List XRow) : List (List ERow) :=
  ((groupsOf l).filter (fun g => !g.isEmpty)).map (fun g => g.map ERow.row)

/-- Drop the separator rows of a grouped sequence, keeping the question rows. -/
def removeSeps (rows : List ERow) : List XRow :=
  rows.filterMap (fun r => match r with | ERow.row q => some q | ERow.sep => none)

/-- Concatenation of the per-type partitions. -/
def flatGroups (gs : List (List XRow)) : List XRow := gs.foldr (fun a b => a ++ b) []

/-- A line carrying any of the four tag kinds (answer, difficulty, knowledge,
explanation); used to state the segmenter claims. -/
def isTagLine (t : String) : Bool :=
  (answerTags ++ difficultyTags ++ knowledgeTags ++ explanationTags).any
    (fun tag => pyStartsWith t tag)


/-! Transition lemmas for the paragraph loop, one per row of the segmenter's
transition table. -/

theorem process_para_blank (s : PState) (p : Para) (h : pyStrip p.text = "") :
    process_para s p = s := by
  unfold process_para
  simp [h]

theorem process_para_qstart (s : PState) (p : Para) (h0 : pyStrip p.text ≠ "")
    (h1 : is_question_start (pyStrip p.text) = true) :
    process_para s p =
      { save_current_question s with
        current_question := some ⟨pyStrip p.text, "", "", "", ""⟩,
        collecting_title := true,
        current_title_lines := [pyStrip p.text],
        current_has_image := p.hasMedia } := by
  unfold process_para
  simp [h0, h1]

theorem process_para_option (s : PState) (p : Para) (h0 : pyStrip p.text ≠ "")
    (h1 : is_question_start (pyStrip p.text) = false)
    (h2 : is_option_start (pyStrip p.text) = true) :
    process_para s p =
      { s with collecting_title := false,
               current_choices := s.current_choices ++ [pyStrip p.text] } := by
  unfold process_para
  simp [h0, h1, h2]

theorem process_para_tag (s : PState) (p : Para) (h0 : pyStrip p.text ≠ "")
    (h1 : is_question_start (pyStrip p.text) = false)
    (h2 : is_option_start (pyStrip p.text) = false)
    (h3 : isTagLine (pyStrip p.text) = true) :
    ∃ oq, process_para s p = { s with current_question := oq } := by
  obtain ⟨d, cq, ct, ctl, cc, chi⟩ := s
  cases hA : answerTags.any (fun tag => pyStartsWith (pyStrip p.text) tag) with
  | true =>
    cases hg : get_tag_content answerTags (pyStrip p.text) with
    | none =>
      exact ⟨cq, by cases cq <;> simp [process_para, h0, h1, h2, hA, hg]⟩
    | some answer_text =>
      cases cq with
      | none => exact ⟨none, by simp [process_para, h0, h1, h2, hA, hg]⟩
      | some q =>
        by_cases hat : answer_text ≠ ""
        · exact ⟨some ({ q with answer := answer_text } : QInfo),
            by simp [process_para, h0, h1, h2, hA, hg, hat]⟩
        · exact ⟨some q, by simp [process_para, h0, h1, h2, hA, hg, hat]⟩
  | false =>
    cases hD : difficultyTags.any (fun tag => pyStartsWith (pyStrip p.text) tag) with
    | true =>
      cases cq with
      | none => exact ⟨none, by simp [process_para, h0, h1, h2, hA, hD]⟩
      | some q =>
        exact ⟨some ({ q with difficulty :=
            (determine_difficulty
              ((get_tag_content difficultyTags (pyStrip p.text)).getD "")).1 } : QInfo),
          by simp [process_para, h0, h1, h2, hA, hD]⟩
    | false =>
      cases hK : knowledgeTags.any (fun tag => pyStartsWith (pyStrip p.text) tag) with
      | true =>
        cases cq with
        | none => exact ⟨none, by simp [process_para, h0, h1, h2, hA, hD, hK]⟩
        | some q =>
          exact ⟨some ({ q with
              knowledge := (get_tag_content knowledgeTags (pyStrip p.text)).getD "" } : QInfo),
            by simp [process_para, h0, h1, h2, hA, hD, hK]⟩
      | false =>
        cases hE : explanationTags.any (fun tag => pyStartsWith (pyStrip p.text) tag) with
        | true =>
          cases cq with
          | none => exact ⟨none, by simp [process_para, h0, h1, h2, hA, hD, hK, hE]⟩
          | some q =>
            exact ⟨some ({ q with
                explanation := (get_tag_content explanationTags (pyStrip p.text)).getD "" } :
                  QInfo),
              by simp [process_para, h0, h1, h2, hA, hD, hK, hE]⟩
        | false =>
          exfalso
          rw [isTagLine, List.any_append, List.any_append, List.any_append, hA, hD, hK, hE]
            at h3
          simp at h3

theorem process_para_content (s : PState) (p : Para) (h0 : pyStrip p.text ≠ "")
    (h1 : is_question_start (pyStrip p.text) = false)
    (h2 : is_option_start (pyStrip p.text) = false)
    (h3 : isTagLine (pyStrip p.text) = false)
    (h4 : s.collecting_title = true) :
    process_para s p =
      { s with current_title_lines := s.current_title_lines ++ [pyStrip p.text],
               current_has_image := s.current_has_image || p.hasMedia } := by
  rw [isTagLine, List.any_append, List.any_append, List.any_append] at h3
  simp only [Bool.or_eq_false_iff] at h3
  obtain ⟨⟨⟨hA, hD⟩, hK⟩, hE⟩ := h3
  unfold process_para
  simp [h0, h1, h2, hA, hD, hK, hE, h4]

theorem process_para_ignore (s : PState) (p : Para) (h0 : pyStrip p.text ≠ "")
    (h1 : is_question_start (pyStrip p.text) = false)
    (h2 : is_option_start (pyStrip p.text) = false)
    (h3 : isTagLine (pyStrip p.text) = false)
    (h4 : s.collecting_title = false) :
    process_para s p = s := by
  rw [isTagLine, List.any_append, List.any_append, List.any_append] at h3
  simp only [Bool.or_eq_false_iff] at h3
  obtain ⟨⟨⟨hA, hD⟩, hK⟩, hE⟩ := h3
  unfold process_para
  simp [h0, h1, h2, hA, hD, hK, hE, h4]

/-- Claim C1 (code bug evidence): the Line Classifier accepts the text 1A as a
question start although the digit prefix is followed by a character that is not a
configured separator, because the '.' separator reaches the regex engine unescaped
and matches any character; the claim-side literal reading rejects 1A. -/
theorem c1_question_start_code_bug :
    is_question_start "1A" = true ∧ ¬ QuestionStartClaim "1A" := by
  constructor
  · decide
  · rintro ⟨sep, hsep, ds, rest, heq, -, -⟩
    have h1 : (pyStrip "1A").toList = ['1', 'A'] := by decide
    rw [h1] at heq
    have hmem : sep = "．" ∨ sep = "." := by simpa [separators] using hsep
    rcases hmem with h | h
    · subst h
      have hin : ('．' : Char) ∈ (['1', 'A'] : List Char) := by
        rw [heq]
        exact List.mem_append.mpr (Or.inl (List.mem_append.mpr (Or.inr (by decide))))
      exact absurd hin (by decide)
    · subst h
      have hin : ('.' : Char) ∈ (['1', 'A'] : List Char) := by
        rw [heq]
        exact List.mem_append.mpr (Or.inl (List.mem_append.mpr (Or.inr (by decide))))
      exact absurd hin (by decide)

/-- Claim C2 (code bug evidence): an option line seen before any question start is
not discarded; it survives in current_choices (save_current_question only clears the
choice lines when a block was open, and the question-start branch does not reset
them), so the first finalized record's options contain the pre-question line A.foo. -/
theorem c2_preamble_option_code_bug :
    (process_document [⟨"A.foo", false⟩, ⟨"1.Q", false⟩, ⟨"【答案】B", false⟩]).choice_list
        = ["A.foo"] ∧
    (process_document [⟨"A.foo", false⟩, ⟨"1.Q", false⟩, ⟨"【答案】B", false⟩]).option_count_list
        = [1] := by decide

/-- Claim C3 counterexample: after a question-start line and an answer tag line the
title-collection flag is still on (the tag branches never clear it), so a following
plain content line is appended to the title, which finalizes as Q X. -/
theorem c3_counterexample :
    (List.foldl process_para initState [⟨"1.Q", false⟩, ⟨"【答案】A", false⟩]).collecting_title
        = true ∧
    (process_document [⟨"1.Q", false⟩, ⟨"【答案】A", false⟩, ⟨"X", false⟩]).title_list
        = ["Q X"] := by decide

/-- Claim C3 (amended): the title-collection flag is turned off exactly by option
lines; the four tag kinds leave both the flag and the title lines unchanged; once the
flag is off it stays off on every non-question-start line, and plain content lines
are then ignored. -/
theorem c3_amended_title_flag (s : PState) (p : Para) :
    (pyStrip p.text ≠ "" → is_question_start (pyStrip p.text) = false →
      is_option_start (pyStrip p.text) = true →
      (process_para s p).collecting_title = false) ∧
    (pyStrip p.text ≠ "" → is_question_start (pyStrip p.text) = false →
      is_option_start (pyStrip p.text) = false → isTagLine (pyStrip p.text) = true →
      (process_para s p).collecting_title = s.collecting_title ∧
      (process_para s p).current_title_lines = s.current_title_lines) ∧
    (pyStrip p.text ≠ "" → is_question_start (pyStrip p.text) = false →
      s.collecting_title = false → (process_para s p).collecting_title = false) ∧
    (pyStrip p.text ≠ "" → is_question_start (pyStrip p.text) = false →
      is_option_start (pyStrip p.text) = false → isTagLine (pyStrip p.text) = false →
      s.collecting_title = false →
      (process_para s p).current_title_lines = s.current_title_lines) := by
  refine ⟨?_, ?_, ?_, ?_⟩
  · intro h0 h1 h2
    rw [process_para_option s p h0 h1 h2]
  · intro h0 h1 h2 h3
    obtain ⟨oq, hq⟩ := process_para_tag s p h0 h1 h2 h3
    rw [hq]
    exact ⟨rfl, rfl⟩
  · intro h0 h1 h4
    by_cases h2 : is_option_start (pyStrip p.text) = true
    · rw [process_para_option s p h0 h1 h2]
    · rw [Bool.not_eq_true] at h2
      by_cases h3 : isTagLine (pyStrip p.text) = true
      · obtain ⟨oq, hq⟩ := process_para_tag s p h0 h1 h2 h3
        rw [hq]
        exact h4
      · rw [Bool.not_eq_true] at h3
        rw [process_para_ignore s p h0 h1 h2 h3 h4]
        exact h4
  · intro h0 h1 h2 h3 h4
    rw [process_para_ignore s p h0 h1 h2 h3 h4]

/-- Closed instance of the amended C3 statement at a concrete state and paragraph. -/
theorem c3_amended_title_flag_witness :
    (process_para
        { data := {}, current_question := some ⟨"1.Q", "", "", "", ""⟩,
          collecting_title := true, current_title_lines := ["1.Q"],
          current_choices := [], current_has_image := false }
        ⟨"【答案】A", false⟩).collecting_title = true := by
  have h := (c3_amended_title_flag
    { data := {}, current_question := some ⟨"1.Q", "", "", "", ""⟩,
      collecting_title := true, current_title_lines := ["1.Q"],
      current_choices := [], current_has_image := false }
    ⟨"【答案】A", false⟩).2.1 (by decide) (by decide) (by decide) (by decide)
  rw [h.1]

/-- Claim C5: the difficulty mapper sends a parsed value below the easy threshold to
the easy label, a parsed value equal to the medium threshold to the medium label, any
other parsed value to the hard label, and an unparsable token to the medium label
with a logged warning. -/
theorem c5_difficulty_mapper (s : String) :
    (∀ v : ℚ, pyFloat s = some v →
      ((v < easyThreshold → determine_difficulty s = (easyName, false)) ∧
       (v = mediumThreshold → determine_difficulty s = (mediumName, false)) ∧
       (¬v < easyThreshold → v ≠ mediumThreshold →
         determine_difficulty s = (hardName, false)))) ∧
    (pyFloat s = none → determine_difficulty s = (mediumName, true)) := by
  constructor
  · intro v hv
    refine ⟨?_, ?_, ?_⟩
    · intro hlt
      unfold determine_difficulty
      rw [hv]
      simp [hlt]
    · intro heqv
      have hnlt : ¬ v < easyThreshold := by
        rw [heqv]
        exact lt_irrefl _
      unfold determine_difficulty
      rw [hv]
      simp [hnlt, heqv]
      intro hcon
      rw [easyThreshold, mediumThreshold] at hcon
      exact absurd hcon (lt_irrefl _)
    · intro hnlt hne
      unfold determine_difficulty
      rw [hv]
      simp [hnlt, hne]
  · intro hv
    unfold determine_difficulty
    rw [hv]

/-- Closed instances of C5 on the four kinds of inputs. -/
theorem c5_difficulty_mapper_witness :
    determine_difficulty "0.5" = ("易", false) ∧ determine_difficulty "0.85" = ("中", false) ∧
    determine_difficulty "7" = ("难", false) ∧ determine_difficulty "abc" = ("中", true) := by
  have h05 : pyFloat "0.5" = some ((1 : ℚ) / 2) := by
    have hp : pyFloatParts "0.5" = some (false, ['0'], ['5']) := by decide
    have hd0 : digitsVal ['0'] = 0 := by decide
    have hd5 : digitsVal ['5'] = 5 := by decide
    unfold pyFloat
    rw [hp, Option.map_some']
    rw [hd0, hd5]
    norm_num
  have h085 : pyFloat "0.85" = some ((17 : ℚ) / 20) := by
    have hp : pyFloatParts "0.85" = some (false, ['0'], ['8', '5']) := by decide
    have hd0 : digitsVal ['0'] = 0 := by decide
    have hd85 : digitsVal ['8', '5'] = 85 := by decide
    unfold pyFloat
    rw [hp, Option.map_some']
    rw [hd0, hd85]
    norm_num
  have h7 : pyFloat "7" = some ((7 : ℚ)) := by
    have hp : pyFloatParts "7" = some (false, ['7'], []) := by decide
    have hd7 : digitsVal ['7'] = 7 := by decide
    have hdn : digitsVal [] = 0 := by decide
    unfold pyFloat
    rw [hp, Option.map_some']
    rw [hd7, hdn]
    norm_num
  have habc : pyFloat "abc" = none := by
    have hp : pyFloatParts "abc" = none := by decide
    unfold pyFloat
    rw [hp]
    rfl
  refine ⟨((c5_difficulty_mapper "0.5").1 _ h05).1 ?_,
          ((c5_difficulty_mapper "0.85").1 _ h085).2.1 ?_,
          ((c5_difficulty_mapper "7").1 _ h7).2.2 ?_ ?_,
          (c5_difficulty_mapper "abc").2 habc⟩
  · rw [easyThreshold]
    norm_num
  · rw [mediumThreshold]
    norm_num
  · rw [easyThreshold]
    norm_num
  · rw [mediumThreshold]
    norm_num

/-- Claim C8 counterexample: an option paragraph carrying media contributes its text
to the block (the record's options are A.foo) but not its media flag, so the record's
hasImage field is false although a contributing paragraph was media-flagged. -/
theorem c8_counterexample :
    (process_document [⟨"1.Q", false⟩, ⟨"A.foo", true⟩, ⟨"【答案】A", false⟩]).has_image_list
        = [false] ∧
    (process_document [⟨"1.Q", false⟩, ⟨"A.foo", true⟩, ⟨"【答案】A", false⟩]).choice_list
        = ["A.foo"] := by decide

/-- Claim C9: the round-trip document produces exactly one record with two counted
options, single-choice type and answer A. -/
theorem c9_round_trip :
    process_document [⟨"1.Question text", false⟩, ⟨"A.foo", false⟩, ⟨"B.bar", false⟩,
        ⟨"【答案】A", false⟩] =
      { title_list := ["Question text"], choice_list := ["A.foo\nB.bar"],
        answer_list := ["A"], difficulty_list := [""], knowledge_list := [""],
        explain_list := [""], type_list := ["单选题"], option_count_list := [2],
        has_image_list := [false] } := by decide

/-- Claim C10: with zero extracted records the exporter's DataFrame projection fails
(an empty frame has no columns), so the export raises instead of writing a
header-only sheet. -/
theorem c10_empty_export_errors (data : DocData) (h : data.title_list = []) :
    export_to_excel data = Except.error "KeyError" := by
  have hprep : prepare_excel_data data = [] := by
    unfold prepare_excel_data
    rw [h]
    rfl
  unfold export_to_excel
  rw [hprep]
  rfl

/-- Closed instance of C10: a readable document with no question lines aborts at
export time. -/
theorem c10_empty_export_errors_witness :
    export_to_excel (process_document [⟨"hello", false⟩]) = Except.error "KeyError" :=
  c10_empty_export_errors (process_document [⟨"hello", false⟩]) (by decide)

/-- Claim C8 (amended): the block's image flag is fed exactly by the question-start
paragraph and the title-content paragraphs: a question start loads the flag from its
own paragraph, a collected content line ors its media flag in, option lines, tag
lines and ignored lines leave the flag unchanged, a true flag stays true until the
next question start, and finalizing a block writes the current flag into the
record. -/
theorem c8_amended_has_image (s : PState) (p : Para) :
    (pyStrip p.text ≠ "" → is_question_start (pyStrip p.text) = true →
      (process_para s p).current_has_image = p.hasMedia) ∧
    (pyStrip p.text ≠ "" → is_question_start (pyStrip p.text) = false →
      is_option_start (pyStrip p.text) = true →
      (process_para s p).current_has_image = s.current_has_image) ∧
    (pyStrip p.text ≠ "" → is_question_start (pyStrip p.text) = false →
      is_option_start (pyStrip p.text) = false → isTagLine (pyStrip p.text) = true →
      (process_para s p).current_has_image = s.current_has_image) ∧
    (pyStrip p.text ≠ "" → is_question_start (pyStrip p.text) = false →
      is_option_start (pyStrip p.text) = false → isTagLine (pyStrip p.text) = false →
      s.collecting_title = true →
      (process_para s p).current_has_image = (s.current_has_image || p.hasMedia)) ∧
    (is_question_start (pyStrip p.text) = false → s.current_has_image = true →
      (process_para s p).current_has_image = true) ∧
    (∀ q, s.current_question = some q →
      (save_current_question s).data.has_image_list
        = s.data.has_image_list ++ [s.current_has_image]) := by
  refine ⟨?_, ?_, ?_, ?_, ?_, ?_⟩
  · intro h0 h1
    rw [process_para_qstart s p h0 h1]
  · intro h0 h1 h2
    rw [process_para_option s p h0 h1 h2]
  · intro h0 h1 h2 h3
    obtain ⟨oq, hq⟩ := process_para_tag s p h0 h1 h2 h3
    rw [hq]
  · intro h0 h1 h2 h3 h4
    rw [process_para_content s p h0 h1 h2 h3 h4]
  · intro h1 himg
    by_cases h0 : pyStrip p.text = ""
    · rw [process_para_blank s p h0]
      exact himg
    · by_cases h2 : is_option_start (pyStrip p.text) = true
      · rw [process_para_option s p h0 h1 h2]
        exact himg
      · rw [Bool.not_eq_true] at h2
        by_cases h3 : isTagLine (pyStrip p.text) = true
        · obtain ⟨oq, hq⟩ := process_para_tag s p h0 h1 h2 h3
          rw [hq]
          exact himg
        · rw [Bool.not_eq_true] at h3
          cases h4 : s.collecting_title with
          | true =>
            rw [process_para_content s p h0 h1 h2 h3 h4, himg]
            rfl
          | false =>
            rw [process_para_ignore s p h0 h1 h2 h3 h4]
            exact himg
  · intro q hq
    unfold save_current_question
    rw [hq]

/-- Closed instance of the amended C8 statement: a media-flagged content line turns
the image flag on. -/
theorem c8_amended_has_image_witness :
    (process_para
        { data := {}, current_question := some ⟨"1.Q", "", "", "", ""⟩,
          collecting_title := true, current_title_lines := ["1.Q"],
          current_choices := [], current_has_image := false }
        ⟨"extra line", true⟩).current_has_image = true := by
  have h := (c8_amended_has_image
    { data := {}, current_question := some ⟨"1.Q", "", "", "", ""⟩,
      collecting_title := true, current_title_lines := ["1.Q"],
      current_choices := [], current_has_image := false }
    ⟨"extra line", true⟩).2.2.2.1 (by decide) (by decide) (by decide) (by decide) (by decide)
  rw [h]
  rfl

/-! Lemmas for the option counter: substring search of a two-character pattern and
its behaviour across newline-joined lines. -/

theorem string_toList_append (a b : String) : (a ++ b).toList = a.toList ++ b.toList := by
  cases a
  cases b
  rfl

theorem listIsSubstr_pair (a b : Char) (l : List Char) :
    listIsSubstr [a, b] l = containsPair a b l := by
  induction l with
  | nil => rfl
  | cons c t ih =>
    cases t with
    | nil => simp [listIsSubstr, listIsPrefixOf, containsPair]
    | cons d r =>
      show (listIsPrefixOf [a, b] (c :: d :: r) || listIsSubstr [a, b] (d :: r))
          = containsPair a b (c :: d :: r)
      rw [ih]
      simp [listIsPrefixOf, containsPair, Bool.and_true]

theorem containsPair_iff (a b : Char) (l : List Char) :
    containsPair a b l = true ↔ ∃ t u, l = t ++ a :: b :: u := by
  induction l with
  | nil =>
    simp only [containsPair, Bool.false_eq_true, false_iff]
    rintro ⟨t, u, h⟩
    have := congrArg List.length h
    simp at this
    omega
  | cons x r ih =>
    cases r with
    | nil =>
      simp only [containsPair, Bool.false_eq_true, false_iff]
      rintro ⟨t, u, h⟩
      have := congrArg List.length h
      simp at this
      omega
    | cons y r' =>
      show ((a == x && b == y) || containsPair a b (y :: r')) = true ↔ _
      constructor
      · intro h
        rcases Bool.or_eq_true_iff.mp h with h1 | h2
        · obtain ⟨hax, hby⟩ := Bool.and_eq_true_iff.mp h1
          refine ⟨[], r', ?_⟩
          rw [beq_iff_eq] at hax hby
          rw [hax, hby]
          rfl
        · obtain ⟨t, u, htu⟩ := ih.mp h2
          exact ⟨x :: t, u, by rw [List.cons_append, htu]⟩
      · rintro ⟨t, u, htu⟩
        cases t with
        | nil =>
          simp only [List.nil_append, List.cons.injEq] at htu
          obtain ⟨hx, hy, -⟩ := htu
          apply Bool.or_eq_true_iff.mpr
          left
          rw [hx, hy]
          simp
        | cons z t' =>
          simp only [List.cons_append, List.cons.injEq] at htu
          obtain ⟨-, hrest⟩ := htu
          exact Bool.or_eq_true_iff.mpr (Or.inr (ih.mpr ⟨t', u, hrest⟩))

theorem containsPair_newline_cons (a b : Char) (ha : a ≠ '\n') (y : List Char) :
    containsPair a b ('\n' :: y) = containsPair a b y := by
  cases y with
  | nil => rfl
  | cons y0 yr =>
    show ((a == '\n' && b == y0) || containsPair a b (y0 :: yr)) = containsPair a b (y0 :: yr)
    have hf : (a == '\n') = false := by simp [ha]
    rw [hf]
    simp

theorem containsPair_append_newline (a b : Char) (ha : a ≠ '\n') (hb : b ≠ '\n')
    (x : List Char) : ∀ y : List Char,
    containsPair a b (x ++ '\n' :: y) = (containsPair a b x || containsPair a b y) := by
  induction x with
  | nil =>
    intro y
    show containsPair a b ('\n' :: y) = (containsPair a b [] || containsPair a b y)
    rw [containsPair_newline_cons a b ha y]
    rfl
  | cons c xr ih =>
    intro y
    cases xr with
    | nil =>
      show containsPair a b (c :: '\n' :: y) = (containsPair a b [c] || containsPair a b y)
      rw [show containsPair a b (c :: '\n' :: y)
          = ((a == c && b == '\n') || containsPair a b ('\n' :: y)) from rfl]
      rw [containsPair_newline_cons a b ha y]
      have hbf : (b == '\n') = false := by simp [hb]
      rw [hbf]
      simp [containsPair]
    | cons d xr' =>
      rw [show (c :: d :: xr') ++ '\n' :: y = c :: ((d :: xr') ++ '\n' :: y) from rfl]
      rw [show containsPair a b (c :: ((d :: xr') ++ '\n' :: y))
          = ((a == c && b == d) || containsPair a b ((d :: xr') ++ '\n' :: y)) from rfl]
      rw [ih y]
      rw [show containsPair a b (c :: d :: xr')
          = ((a == c && b == d) || containsPair a b (d :: xr')) from rfl]
      simp [Bool.or_assoc]

theorem pyUpper_toList (s : String) : (pyUpper s).toList = s.toList.map Char.toUpper := rfl

/-- The probe of count_options distributes over a newline join: the two-character
patterns never straddle the join boundary because neither the option letter nor the
mark character is a newline. -/
theorem hasOptMark_append_nl (opt : Char) (hopt : opt ≠ '\n') (a b : String) :
    hasOptMark opt (pyUpper (a ++ "\n" ++ b))
      = (hasOptMark opt (pyUpper a) || hasOptMark opt (pyUpper b)) := by
  have h : (pyUpper (a ++ "\n" ++ b)).toList
      = (pyUpper a).toList ++ '\n' :: (pyUpper b).toList := by
    rw [pyUpper_toList, pyUpper_toList, pyUpper_toList]
    rw [string_toList_append, string_toList_append]
    simp
  unfold hasOptMark pyContains
  rw [show (String.mk [opt, '.']).toList = [opt, '.'] from rfl]
  rw [show (String.mk [opt, '．']).toList = [opt, '．'] from rfl]
  rw [show (String.mk [opt, ' ']).toList = [opt, ' '] from rfl]
  rw [listIsSubstr_pair, listIsSubstr_pair, listIsSubstr_pair, listIsSubstr_pair,
    listIsSubstr_pair, listIsSubstr_pair, listIsSubstr_pair, listIsSubstr_pair,
    listIsSubstr_pair]
  rw [h]
  rw [containsPair_append_newline opt '.' hopt (by decide),
    containsPair_append_newline opt '．' hopt (by decide),
    containsPair_append_newline opt ' ' hopt (by decide)]
  cases containsPair opt '.' (pyUpper a).toList <;>
    cases containsPair opt '.' (pyUpper b).toList <;>
    cases containsPair opt '．' (pyUpper a).toList <;>
    cases containsPair opt '．' (pyUpper b).toList <;>
    cases containsPair opt ' ' (pyUpper a).toList <;>
    cases containsPair opt ' ' (pyUpper b).toList <;> rfl

theorem hasOptMark_joinNl (opt : Char) (hopt : opt ≠ '\n') (ls : List String) :
    hasOptMark opt (pyUpper (pyJoin "\n" ls))
      = ls.any (fun l => hasOptMark opt (pyUpper l)) := by
  induction ls with
  | nil => rfl
  | cons l ls ih =>
    cases ls with
    | nil => simp [pyJoin]
    | cons l' ls' =>
      show hasOptMark opt (pyUpper (l ++ "\n" ++ pyJoin "\n" (l' :: ls'))) = _
      rw [hasOptMark_append_nl opt hopt, ih]
      simp

theorem count_options_eq (s : String) :
    count_options s = optionsCfg.countP (fun opt => hasOptMark opt (pyUpper s)) := by
  unfold count_options
  by_cases h : s = ""
  · subst h
    decide
  · rw [if_neg h]

theorem optionsCfg_ne_newline : ∀ c ∈ optionsCfg, c ≠ '\n' := by decide

/-- Claim C7: the option counter returns zero on an empty text; an alphabet letter is
counted as present exactly when the upper-cased text contains the letter followed by
a dot, a fullwidth dot or a space; the count over a newline-joined list of option
lines is invariant under permutation of the lines and under appending a duplicate
line, and never exceeds the alphabet size (each letter counts at most once). -/
theorem c7_option_counter :
    count_options "" = 0 ∧
    (∀ (c : Char) (s : String), c ∈ optionsCfg →
      (hasOptMark c (pyUpper s) = true ↔ PresentMark c s)) ∧
    (∀ s : String, count_options s
        = optionsCfg.countP (fun opt => hasOptMark opt (pyUpper s))) ∧
    (∀ ls₁ ls₂ : List String, ls₁.Perm ls₂ →
      count_options (pyJoin "\n" ls₁) = count_options (pyJoin "\n" ls₂)) ∧
    (∀ (ls : List String) (l : String), l ∈ ls →
      count_options (pyJoin "\n" (ls ++ [l])) = count_options (pyJoin "\n" ls)) ∧
    (∀ s : String, count_options s ≤ optionsCfg.length) := by
  refine ⟨rfl, ?_, count_options_eq, ?_, ?_, ?_⟩
  · intro c s hc
    unfold hasOptMark pyContains PresentMark
    rw [show (String.mk [c, '.']).toList = [c, '.'] from rfl]
    rw [show (String.mk [c, '．']).toList = [c, '．'] from rfl]
    rw [show (String.mk [c, ' ']).toList = [c, ' '] from rfl]
    rw [listIsSubstr_pair, listIsSubstr_pair, listIsSubstr_pair]
    constructor
    · intro h
      rcases Bool.or_eq_true_iff.mp h with h1 | h3
      · rcases Bool.or_eq_true_iff.mp h1 with h1a | h1b
        · obtain ⟨t, u, htu⟩ := (containsPair_iff c '.' _).mp h1a
          exact ⟨'.', by decide, t, u, htu⟩
        · obtain ⟨t, u, htu⟩ := (containsPair_iff c '．' _).mp h1b
          exact ⟨'．', by decide, t, u, htu⟩
      · obtain ⟨t, u, htu⟩ := (containsPair_iff c ' ' _).mp h3
        exact ⟨' ', by decide, t, u, htu⟩
    · rintro ⟨m, hm, t, u, htu⟩
      have hm3 : m = '.' ∨ m = '．' ∨ m = ' ' := by
        simpa using hm
      rcases hm3 with h | h | h <;> subst h
      · exact Bool.or_eq_true_iff.mpr
          (Or.inl (Bool.or_eq_true_iff.mpr (Or.inl ((containsPair_iff c '.' _).mpr ⟨t, u, htu⟩))))
      · exact Bool.or_eq_true_iff.mpr
          (Or.inl (Bool.or_eq_true_iff.mpr (Or.inr ((containsPair_iff c '．' _).mpr ⟨t, u, htu⟩))))
      · exact Bool.or_eq_true_iff.mpr (Or.inr ((containsPair_iff c ' ' _).mpr ⟨t, u, htu⟩))
  · intro ls₁ ls₂ hperm
    rw [count_options_eq, count_options_eq]
    apply List.countP_congr
    intro c hcmem
    have hc : c ≠ '\n' := optionsCfg_ne_newline c hcmem
    rw [hasOptMark_joinNl c hc ls₁, hasOptMark_joinNl c hc ls₂]
    constructor
    · intro h
      obtain ⟨x, hx, hfx⟩ := List.any_eq_true.mp h
      exact List.any_eq_true.mpr ⟨x, hperm.mem_iff.mp hx, hfx⟩
    · intro h
      obtain ⟨x, hx, hfx⟩ := List.any_eq_true.mp h
      exact List.any_eq_true.mpr ⟨x, hperm.mem_iff.mpr hx, hfx⟩
  · intro ls l hl
    rw [count_options_eq, count_options_eq]
    apply List.countP_congr
    intro c hcmem
    have hc : c ≠ '\n' := optionsCfg_ne_newline c hcmem
    rw [hasOptMark_joinNl c hc, hasOptMark_joinNl c hc]
    rw [List.any_append]
    constructor
    · intro h
      rcases Bool.or_eq_true_iff.mp h with h | h
      · exact h
      · have hfl : hasOptMark c (pyUpper l) = true := by simpa using h
        exact List.any_eq_true.mpr ⟨l, hl, hfl⟩
    · intro h
      exact Bool.or_eq_true_iff.mpr (Or.inl h)
  · intro s
    rw [count_options_eq]
    exact List.countP_le_length _

/-- Closed instance of C7: the counter on the joined lines A.x, B.y gives 2, is
unchanged by swapping the lines and by appending a duplicate line. -/
theorem c7_option_counter_witness :
    count_options (pyJoin "\n" ["A.x", "B.y"]) = 2 ∧
    count_options (pyJoin "\n" ["B.y", "A.x"]) = count_options (pyJoin "\n" ["A.x", "B.y"]) ∧
    count_options (pyJoin "\n" (["B.y", "A.x"] ++ ["A.x"]))
      = count_options (pyJoin "\n" ["B.y", "A.x"]) := by
  refine ⟨by decide, ?_, ?_⟩
  · exact c7_option_counter.2.2.2.1 ["B.y", "A.x"] ["A.x", "B.y"] (by decide)
  · exact c7_option_counter.2.2.2.2.1 ["B.y", "A.x"] "A.x" (by decide)

/-! Lemmas for the grouped exporter: the grouping fold equals the per-type partitions
joined with single separator rows. -/

theorem sepJoin_cons (g : List ERow) (gs : List (List ERow)) :
    sepJoin (g :: gs) = if gs = [] then g else g ++ ERow.sep :: sepJoin gs := by
  cases gs with
  | nil => simp [sepJoin]
  | cons g' gs' => simp [sepJoin]

theorem group_step_of_empty (l : List XRow) (t : String) (grouped : List ERow)
    (h : l.filter (fun q => q.qtype == t) = []) : group_step l grouped t = grouped := by
  unfold group_step
  simp [h]

theorem group_step_of_ne (l : List XRow) (t : String) (grouped : List ERow)
    (h : l.filter (fun q => q.qtype == t) ≠ []) (hg : grouped ≠ []) :
    group_step l grouped t
      = grouped ++ ERow.sep :: (l.filter (fun q => q.qtype == t)).map ERow.row := by
  unfold group_step
  simp [h, hg]

theorem group_step_of_ne_nil_acc (l : List XRow) (t : String)
    (h : l.filter (fun q => q.qtype == t) ≠ []) :
    group_step l [] t = (l.filter (fun q => q.qtype == t)).map ERow.row := by
  unfold group_step
  simp [h]

theorem specGroupsOn_cons_empty (l : List XRow) (t : String) (ord : List String)
    (h : l.filter (fun q => q.qtype == t) = []) :
    specGroupsOn l (t :: ord) = specGroupsOn l ord := by
  unfold specGroupsOn
  rw [List.map_cons, List.filter_cons]
  simp [h]

theorem specGroupsOn_cons_ne (l : List XRow) (t : String) (ord : List String)
    (h : l.filter (fun q => q.qtype == t) ≠ []) :
    specGroupsOn l (t :: ord)
      = ((l.filter (fun q => q.qtype == t)).map ERow.row) :: specGroupsOn l ord := by
  unfold specGroupsOn
  rw [List.map_cons, List.filter_cons]
  simp [h]

theorem group_foldl_ne_acc (l : List XRow) (ord : List String) : ∀ acc : List ERow,
    acc ≠ [] →
    ord.foldl (group_step l) acc
      = if specGroupsOn l ord = [] then acc
        else acc ++ ERow.sep :: sepJoin (specGroupsOn l ord) := by
  induction ord with
  | nil =>
    intro acc hacc
    simp [specGroupsOn]
  | cons t ord ih =>
    intro acc hacc
    rw [List.foldl_cons]
    by_cases hft : l.filter (fun q => q.qtype == t) = []
    · rw [group_step_of_empty l t acc hft, ih acc hacc, specGroupsOn_cons_empty l t ord hft]
    · rw [group_step_of_ne l t acc hft hacc]
      rw [ih _ (by simp)]
      rw [specGroupsOn_cons_ne l t ord hft]
      rw [if_neg (List.cons_ne_nil _ _)]
      rw [sepJoin_cons]
      by_cases hrest : specGroupsOn l ord = []
      · rw [if_pos hrest, if_pos hrest]
      · rw [if_neg hrest, if_neg hrest]
        simp [List.append_assoc]

theorem group_foldl_nil_acc (l : List XRow) (ord : List String) :
    ord.foldl (group_step l) [] = sepJoin (specGroupsOn l ord) := by
  induction ord with
  | nil => rfl
  | cons t ord ih =>
    rw [List.foldl_cons]
    by_cases hft : l.filter (fun q => q.qtype == t) = []
    · rw [group_step_of_empty l t [] hft, ih, specGroupsOn_cons_empty l t ord hft]
    · rw [group_step_of_ne_nil_acc l t hft]
      have htq : (l.filter (fun q => q.qtype == t)).map ERow.row ≠ [] := by simp [hft]
      rw [group_foldl_ne_acc l ord _ htq]
      rw [specGroupsOn_cons_ne l t ord hft, sepJoin_cons]

theorem group_rows_eq_sepJoin (l : List XRow) : group_rows l = sepJoin (specGroups l) := by
  unfold group_rows
  rw [group_foldl_nil_acc l type_order]
  rfl

theorem specGroups_mem_props (l : List XRow) :
    ∀ g ∈ specGroups l, g ≠ [] ∧ ∀ e ∈ g, e ≠ ERow.sep := by
  intro g hg
  unfold specGroups at hg
  rw [List.mem_map] at hg
  obtain ⟨gl, hgl, rfl⟩ := hg
  rw [List.mem_filter] at hgl
  obtain ⟨-, hne⟩ := hgl
  have hgl_ne : gl ≠ [] := by simpa using hne
  constructor
  · simpa using hgl_ne
  · intro e he
    rw [List.mem_map] at he
    obtain ⟨x, -, rfl⟩ := he
    simp

theorem sepJoin_ne_nil (gs : List (List ERow)) (hne : gs ≠ [])
    (h : ∀ g ∈ gs, g ≠ []) : sepJoin gs ≠ [] := by
  cases gs with
  | nil => exact absurd rfl hne
  | cons g gs' =>
    rw [sepJoin_cons]
    by_cases h' : gs' = []
    · rw [if_pos h']
      exact h g (by simp)
    · rw [if_neg h']
      simp

theorem sepJoin_head_ne_sep (gs : List (List ERow))
    (h : ∀ g ∈ gs, g ≠ [] ∧ ∀ e ∈ g, e ≠ ERow.sep) :
    (sepJoin gs).head? ≠ some ERow.sep := by
  cases gs with
  | nil => simp [sepJoin]
  | cons g gs' =>
    obtain ⟨hg, hsep⟩ := h g (by simp)
    rw [sepJoin_cons]
    cases g with
    | nil => exact absurd rfl hg
    | cons e g' =>
      have he : e ≠ ERow.sep := hsep e (by simp)
      by_cases h' : gs' = []
      · rw [if_pos h']
        simp [he]
      · rw [if_neg h']
        rw [List.cons_append]
        simp [he]

theorem sepJoin_getLast_ne_sep (gs : List (List ERow))
    (h : ∀ g ∈ gs, g ≠ [] ∧ ∀ e ∈ g, e ≠ ERow.sep) :
    (sepJoin gs).getLast? ≠ some ERow.sep := by
  induction gs with
  | nil => simp [sepJoin]
  | cons g gs' ih =>
    obtain ⟨hg, hsep⟩ := h g (by simp)
    rw [sepJoin_cons]
    by_cases h' : gs' = []
    · rw [if_pos h']
      intro hc
      exact hsep _ (List.mem_of_getLast?_eq_some hc) rfl
    · rw [if_neg h']
      have hjoin_ne : sepJoin gs' ≠ [] := by
        apply sepJoin_ne_nil gs' h'
        intro g' hg'
        exact (h g' (by simp [hg'])).1
      rw [List.getLast?_append_of_ne_nil g (List.cons_ne_nil _ _)]
      have ihh : (sepJoin gs').getLast? ≠ some ERow.sep := by
        apply ih
        intro g' hg'
        exact h g' (by simp [hg'])
      cases hsj : sepJoin gs' with
      | nil => exact absurd hsj hjoin_ne
      | cons a as =>
        rw [List.getLast?_cons_cons]
        rw [hsj] at ihh
        exact ihh

theorem chain_of_no_sep (g : List ERow) (h : ∀ e ∈ g, e ≠ ERow.sep) :
    List.Chain' (fun a b => ¬(a = ERow.sep ∧ b = ERow.sep)) g := by
  induction g with
  | nil => simp
  | cons e g' ih =>
    rw [List.chain'_cons']
    constructor
    · intro y hy hc
      exact h e (by simp) hc.1
    · exact ih (fun e' he' => h e' (by simp [he']))

theorem sepJoin_chain (gs : List (List ERow))
    (h : ∀ g ∈ gs, g ≠ [] ∧ ∀ e ∈ g, e ≠ ERow.sep) :
    List.Chain' (fun a b => ¬(a = ERow.sep ∧ b = ERow.sep)) (sepJoin gs) := by
  induction gs with
  | nil => simp [sepJoin]
  | cons g gs' ih =>
    obtain ⟨hg, hsep⟩ := h g (by simp)
    rw [sepJoin_cons]
    by_cases h' : gs' = []
    · rw [if_pos h']
      exact chain_of_no_sep g hsep
    · rw [if_neg h']
      apply List.Chain'.append (chain_of_no_sep g hsep)
      · rw [List.chain'_cons']
        constructor
        · intro y hy hc
          rw [hc.2] at hy
          exact sepJoin_head_ne_sep gs' (fun g' hg' => h g' (by simp [hg']))
            (Option.mem_def.mp hy)
        · exact ih (fun g' hg' => h g' (by simp [hg']))
      · intro x hx y hy hc
        exact hsep x (List.mem_of_getLast?_eq_some (Option.mem_def.mp hx)) hc.1

theorem sepJoin_count_sep (gs : List (List ERow))
    (h : ∀ g ∈ gs, ∀ e ∈ g, e ≠ ERow.sep) :
    (sepJoin gs).count ERow.sep = gs.length - 1 := by
  induction gs with
  | nil => simp [sepJoin]
  | cons g gs' ih =>
    rw [sepJoin_cons]
    have hcg : g.count ERow.sep = 0 := by
      rw [List.count_eq_zero]
      intro hc
      exact h g (by simp) _ hc rfl
    by_cases h' : gs' = []
    · rw [if_pos h', h']
      simp [hcg]
    · rw [if_neg h']
      rw [List.count_append, hcg, List.count_cons_self]
      rw [ih (fun g' hg' => h g' (by simp [hg']))]
      have hlen : 1 ≤ gs'.length := by
        cases gs' with
        | nil => exact absurd rfl h'
        | cons _ _ => simp
      simp only [List.length_cons]
      omega

theorem removeSeps_map_row (g : List XRow) : removeSeps (g.map ERow.row) = g := by
  induction g with
  | nil => rfl
  | cons x g' ih =>
    rw [List.map_cons]
    unfold removeSeps at ih ⊢
    rw [List.filterMap_cons]
    simp only at ih ⊢
    rw [ih]

theorem removeSeps_append (a b : List ERow) :
    removeSeps (a ++ b) = removeSeps a ++ removeSeps b := by
  unfold removeSeps
  rw [List.filterMap_append]

theorem flatGroups_cons (g : List XRow) (gs : List (List XRow)) :
    flatGroups (g :: gs) = g ++ flatGroups gs := rfl

theorem removeSeps_sepJoin_map (hs : List (List XRow)) :
    removeSeps (sepJoin (hs.map (fun g => g.map ERow.row))) = flatGroups hs := by
  induction hs with
  | nil => rfl
  | cons g hs' ih =>
    rw [List.map_cons, sepJoin_cons]
    by_cases h' : hs'.map (fun g => g.map ERow.row) = []
    · rw [if_pos h']
      have h0 : hs' = [] := by simpa using h'
      subst h0
      rw [removeSeps_map_row, flatGroups_cons]
      simp [flatGroups]
    · rw [if_neg h']
      rw [removeSeps_append, removeSeps_map_row]
      have hsepstep : removeSeps (ERow.sep :: sepJoin (hs'.map fun g => g.map ERow.row))
          = removeSeps (sepJoin (hs'.map fun g => g.map ERow.row)) := by
        unfold removeSeps
        rw [List.filterMap_cons]
      rw [hsepstep, ih, flatGroups_cons]

theorem flatGroups_filter (gs : List (List XRow)) :
    flatGroups (gs.filter (fun g => !g.isEmpty)) = flatGroups gs := by
  induction gs with
  | nil => rfl
  | cons g gs' ih =>
    rw [List.filter_cons]
    by_cases h : g.isEmpty
    · have hg : g = [] := List.isEmpty_iff.mp h
      subst hg
      simp only [h, Bool.not_true, Bool.false_eq_true, if_false]
      rw [ih, flatGroups_cons]
      rfl
    · have hb : (!g.isEmpty) = true := by
        simp only [Bool.not_eq_true] at h
        simp [h]
      rw [if_pos hb, flatGroups_cons, flatGroups_cons, ih]

theorem flatGroups_length_cons_filter (q : XRow) (l : List XRow) (ord : List String) :
    (flatGroups (ord.map (fun t => (q :: l).filter (fun r => r.qtype == t)))).length
      = ord.count q.qtype
        + (flatGroups (ord.map (fun t => l.filter (fun r => r.qtype == t)))).length := by
  induction ord with
  | nil => simp [flatGroups]
  | cons t ord ih =>
    rw [List.map_cons, List.map_cons, flatGroups_cons, flatGroups_cons]
    rw [List.length_append, List.length_append]
    rw [ih]
    rw [List.filter_cons]
    rw [List.count_cons]
    by_cases hqt : (q.qtype == t) = true
    · rw [if_pos hqt]
      have ht : (t == q.qtype) = true := by
        rw [beq_iff_eq] at hqt ⊢
        exact hqt.symm
      rw [if_pos ht]
      simp only [List.length_cons]
      omega
    · rw [if_neg hqt]
      have ht : ¬ (t == q.qtype) = true := by
        rw [beq_iff_eq] at hqt ⊢
        exact fun hc => hqt hc.symm
      rw [if_neg ht]
      omega

theorem type_order_count_of_mem (t : String) (h : t ∈ type_order) :
    type_order.count t = 1 := by
  have h5 : t = "单选题" ∨ t = "多选题" ∨ t = "判断题" ∨ t = "填空题" ∨ t = "未知类型" := by
    simpa [type_order] using h
  rcases h5 with h | h | h | h | h <;> subst h <;> decide

theorem flatGroups_groupsOf_length (l : List XRow) (h : ∀ q ∈ l, q.qtype ∈ type_order) :
    (flatGroups (groupsOf l)).length = l.length := by
  induction l with
  | nil => rfl
  | cons q l ih =>
    have hq := h q (by simp)
    have hl : ∀ r ∈ l, r.qtype ∈ type_order := fun r hr => h r (by simp [hr])
    unfold groupsOf
    rw [flatGroups_length_cons_filter q l type_order]
    unfold groupsOf at ih
    rw [ih hl]
    rw [type_order_count_of_mem q.qtype hq]
    simp only [List.length_cons]
    omega

/-- Claim C6: the grouped export equals the nonempty per-type partitions (fixed type
order, original relative order inside each partition) joined with exactly one blank
separator row between consecutive partitions; no separator at the start or the end,
no two adjacent separators, the separator count is one less than the number of
nonempty partitions, and when every record's type belongs to the fixed order no
record is lost. -/
theorem c6_grouped_export (l : List XRow) :
    group_rows l = sepJoin (specGroups l) ∧
    removeSeps (group_rows l) = flatGroups (groupsOf l) ∧
    (group_rows l).head? ≠ some ERow.sep ∧
    (group_rows l).getLast? ≠ some ERow.sep ∧
    List.Chain' (fun a b => ¬(a = ERow.sep ∧ b = ERow.sep)) (group_rows l) ∧
    (group_rows l).count ERow.sep = (specGroups l).length - 1 ∧
    ((∀ q ∈ l, q.qtype ∈ type_order) → (removeSeps (group_rows l)).length = l.length) := by
  have heq := group_rows_eq_sepJoin l
  have hprops := specGroups_mem_props l
  have hrs : removeSeps (group_rows l) = flatGroups (groupsOf l) := by
    rw [heq]
    rw [show specGroups l
        = ((groupsOf l).filter (fun g => !g.isEmpty)).map (fun g => g.map ERow.row) from rfl]
    rw [removeSeps_sepJoin_map, flatGroups_filter]
  refine ⟨heq, hrs, ?_, ?_, ?_, ?_, ?_⟩
  · rw [heq]
    exact sepJoin_head_ne_sep _ hprops
  · rw [heq]
    exact sepJoin_getLast_ne_sep _ hprops
  · rw [heq]
    exact sepJoin_chain _ hprops
  · rw [heq]
    exact sepJoin_count_sep _ (fun g hg => (hprops g hg).2)
  · intro hmem
    rw [hrs]
    exact flatGroups_groupsOf_length l hmem

/-- Closed instance of C6: two records of two distinct types are both kept by the
grouped export. -/
theorem c6_grouped_export_witness :
    (removeSeps (group_rows
        [⟨"单选题", "t1", "", 0, "A", "", "", "", false⟩,
         ⟨"判断题", "t2", "", 0, "对", "", "", "", false⟩])).length = 2 :=
  (c6_grouped_export
    [⟨"单选题", "t1", "", 0, "A", "", "", "", false⟩,
     ⟨"判断题", "t2", "", 0, "对", "", "", "", false⟩]).2.2.2.2.2.2 (by decide)

/-- Claim C4 counterexample: on the answer A-tab-B the source classifier leaves the
tab in place (replace removes only spaces) and answers fill-in-the-blank, while the
claim's whitespace-removing reading answers multi-choice. -/
theorem c4_counterexample :
    determine_type "A\tB" = "填空题" ∧ determine_type_claim "A\tB" = "多选题" := by decide

/-- Claim C4 (amended): the classifier behaves exactly as the claim describes with
whitespace removal weakened to space removal (and with at least one character
required to remain for the choice branch). -/
theorem c4_amended_classifier (answer : String) :
    determine_type answer = determine_type_amended answer := by
  unfold determine_type determine_type_amended
  by_cases h0 : answer = ""
  · simp [h0]
  · simp only [h0, if_false, ite_false]
    by_cases hj :
        (judge_answers.any fun j => j == answer || pyUpper j == pyStrip (pyUpper answer)) = true
    · simp [hj]
    · simp only [Bool.not_eq_true] at hj
      simp only [hj, Bool.false_eq_true, if_false, ite_false]
      have hdd : ((pyReplaceSpace (pyStrip (pyUpper answer))).toList.dedup ≠ [] ∧
            (pyReplaceSpace (pyStrip (pyUpper answer))).toList.dedup.all
              (fun c => optionsCfg.contains c) = true) ↔
          ((pyReplaceSpace (pyStrip (pyUpper answer))).toList ≠ [] ∧
            (pyReplaceSpace (pyStrip (pyUpper answer))).toList.all
              (fun c => optionsCfg.contains c) = true) := by
        simp [List.dedup_eq_nil, List.all_eq_true, List.mem_dedup]
      by_cases hA : ((pyReplaceSpace (pyStrip (pyUpper answer))).toList ≠ [] ∧
          (pyReplaceSpace (pyStrip (pyUpper answer))).toList.all
            (fun c => optionsCfg.contains c) = true)
      · rw [if_pos (hdd.mpr hA), if_pos hA]
        have hpos : 0 < (pyReplaceSpace (pyStrip (pyUpper answer))).toList.length :=
          List.length_pos.mpr hA.1
        by_cases hl : (pyReplaceSpace (pyStrip (pyUpper answer))).toList.length = 1
        · rw [if_neg (by omega), if_pos hl]
        · rw [if_pos (by omega), if_neg hl]
      · rw [if_neg (fun hc => hA (hdd.mp hc)), if_neg hA]
